import Mathlib

/-!
A verification development for the `bindings_gui` repository.

The Rust data model is shallowly embedded in Lean:
`BTreeMap` becomes an association list accessed only through `lookupL` /
`upsertL` / `eraseL` (a `BTreeMap` has unique keys; where a proof needs
that fact it carries an explicit no-duplicate-keys hypothesis),
`Rc<String>` becomes `String`, `u8` becomes `Nat`, `i16` becomes `Int`,
and functions that `unwrap`/`panic!` in Rust return `Option`/`Except`
(`none`/`error` marking the panic or error path).
-/

namespace BindingsGui

/-- Lookup in an association list: the value of the first pair whose key
matches (mirrors `BTreeMap::get`). -/
def lookupL {α β : Type} [DecidableEq α] : List (α × β) → α → Option β
  | [], _ => none
  | (k', v) :: rest, k => if k' = k then some v else lookupL rest k

/-- Insert-or-replace in an association list: replaces the value of the first
matching key in place, else appends (mirrors `BTreeMap::insert` /
`entry().or_insert` followed by mutation of the entry). -/
def upsertL {α β : Type} [DecidableEq α] (k : α) (v : β) : List (α × β) → List (α × β)
  | [] => [(k, v)]
  | (k', v') :: rest => if k' = k then (k, v) :: rest else (k', v') :: upsertL k v rest

/-- Remove the first pair with the given key (mirrors `BTreeMap::remove`). -/
def eraseL {α β : Type} [DecidableEq α] (k : α) : List (α × β) → List (α × β)
  | [] => []
  | (k', v') :: rest => if k' = k then rest else (k', v') :: eraseL k rest

/-- The keys of an association list. -/
def keysL {α β : Type} (m : List (α × β)) : List α := m.map Prod.fst

section MapLemmas

variable {α β : Type} [DecidableEq α]

@[simp] theorem lookupL_nil (k : α) : lookupL ([] : List (α × β)) k = none := rfl

@[simp] theorem lookupL_cons (k' : α) (v : β) (rest : List (α × β)) (k : α) :
    lookupL ((k', v) :: rest) k = if k' = k then some v else lookupL rest k := rfl

@[simp] theorem lookupL_upsert_self (m : List (α × β)) (k : α) (v : β) :
    lookupL (upsertL k v m) k = some v := by
  induction m with
  | nil => simp [upsertL]
  | cons hd tl ih =>
    obtain ⟨k', v'⟩ := hd
    by_cases h : k' = k <;> simp [upsertL, h, ih]

theorem lookupL_upsert_ne (m : List (α × β)) (k k' : α) (v : β) (h : k ≠ k') :
    lookupL (upsertL k v m) k' = lookupL m k' := by
  induction m with
  | nil => simp [upsertL, h]
  | cons hd tl ih =>
    obtain ⟨k0, v0⟩ := hd
    by_cases h0 : k0 = k
    · subst h0
      simp [upsertL, h]
    · simp only [upsertL, if_neg h0, lookupL_cons, ih]

theorem lookupL_erase_ne (m : List (α × β)) (k k' : α) (h : k ≠ k') :
    lookupL (eraseL k m) k' = lookupL m k' := by
  induction m with
  | nil => simp [eraseL]
  | cons hd tl ih =>
    obtain ⟨k0, v0⟩ := hd
    by_cases h0 : k0 = k
    · subst h0
      simp [eraseL, h, lookupL_cons]
    · simp [eraseL, h0, ih]

theorem lookupL_eq_none_of_not_mem_keys (m : List (α × β)) (k : α) (h : k ∉ keysL m) :
    lookupL m k = none := by
  induction m with
  | nil => rfl
  | cons hd tl ih =>
    obtain ⟨k0, v0⟩ := hd
    simp only [keysL, List.map_cons, List.mem_cons, not_or] at h
    have hne : k0 ≠ k := fun he => h.1 he.symm
    simp only [lookupL_cons, if_neg hne]
    exact ih h.2

theorem lookupL_erase_self (m : List (α × β)) (k : α) (h : (keysL m).Nodup) :
    lookupL (eraseL k m) k = none := by
  induction m with
  | nil => rfl
  | cons hd tl ih =>
    obtain ⟨k0, v0⟩ := hd
    simp only [keysL, List.map_cons, List.nodup_cons] at h
    by_cases h0 : k0 = k
    · subst h0
      simp only [eraseL, if_pos rfl]
      exact lookupL_eq_none_of_not_mem_keys tl k0 h.1
    · simp only [eraseL, if_neg h0, lookupL_cons, if_neg h0]
      exact ih h.2

theorem keysL_upsert (m : List (α × β)) (k : α) (v : β) :
    keysL (upsertL k v m) = if k ∈ keysL m then keysL m else keysL m ++ [k] := by
  induction m with
  | nil => simp [upsertL, keysL]
  | cons hd tl ih =>
    obtain ⟨k0, v0⟩ := hd
    by_cases h0 : k0 = k
    · subst h0
      simp [upsertL, keysL]
    · have hne : k ≠ k0 := fun he => h0 he.symm
      simp only [upsertL, if_neg h0, keysL, List.map_cons, List.mem_cons, if_neg,
        hne, false_or]
      simp only [keysL] at ih
      by_cases hmem : k ∈ tl.map Prod.fst
      · simp [hmem, ih]
      · simp [hmem, ih]

theorem keysL_nodup_upsert (m : List (α × β)) (k : α) (v : β) (h : (keysL m).Nodup) :
    (keysL (upsertL k v m)).Nodup := by
  rw [keysL_upsert]
  by_cases hmem : k ∈ keysL m
  · simpa [hmem] using h
  · simp only [if_neg hmem]
    simpa [List.nodup_append] using ⟨h, hmem⟩

theorem keysL_upsert_mem (m : List (α × β)) (k : α) (v : β) (h : k ∈ keysL m) :
    keysL (upsertL k v m) = keysL m := by
  simp [keysL_upsert, h]

theorem keysL_erase_sublist (m : List (α × β)) (k : α) :
    (keysL (eraseL k m)).Sublist (keysL m) := by
  induction m with
  | nil => simp [eraseL]
  | cons hd tl ih =>
    obtain ⟨k0, v0⟩ := hd
    by_cases h0 : k0 = k
    · simp only [eraseL, if_pos h0, keysL, List.map_cons]
      exact (List.sublist_cons_self _ _)
    · simp only [eraseL, if_neg h0, keysL, List.map_cons]
      exact ih.cons₂ k0

theorem keysL_nodup_erase (m : List (α × β)) (k : α) (h : (keysL m).Nodup) :
    (keysL (eraseL k m)).Nodup :=
  (keysL_erase_sublist m k).nodup h

theorem upsertL_eq_self_of_lookup (m : List (α × β)) (k : α) (v : β)
    (h : lookupL m k = some v) : upsertL k v m = m := by
  induction m with
  | nil => simp at h
  | cons hd tl ih =>
    obtain ⟨k0, v0⟩ := hd
    by_cases h0 : k0 = k
    · subst h0
      simp at h
      simp [upsertL, h]
    · simp only [lookupL_cons, if_neg h0] at h
      simp [upsertL, h0, ih h]

theorem lookupL_isSome_of_mem_keys (m : List (α × β)) (k : α) (h : k ∈ keysL m) :
    (lookupL m k).isSome := by
  induction m with
  | nil => simp [keysL] at h
  | cons hd tl ih =>
    obtain ⟨k0, v0⟩ := hd
    by_cases h0 : k0 = k
    · simp [h0]
    · simp only [keysL, List.map_cons, List.mem_cons] at h
      rcases h with h | h
      · exact absurd h.symm h0
      · simp only [lookupL_cons, if_neg h0]
        exact ih h

theorem lookupL_map_values {γ : Type} (f : β → γ) (m : List (α × β)) (k : α) :
    lookupL (m.map (fun p => (p.1, f p.2))) k = (lookupL m k).map f := by
  induction m with
  | nil => rfl
  | cons hd tl ih =>
    obtain ⟨k0, v0⟩ := hd
    by_cases h0 : k0 = k
    · simp [h0]
    · simp [h0, ih]

omit [DecidableEq α] in
theorem keysL_map_values {γ : Type} (f : β → γ) (m : List (α × β)) :
    keysL (m.map (fun p => (p.1, f p.2))) = keysL m := by
  induction m with
  | nil => rfl
  | cons hd tl ih => simp [keysL]

theorem mem_map_filter_getD {γ : Type} (x : Option (List γ)) (p : γ → Bool) (a : γ) :
    a ∈ ((x.map (fun l => l.filter p)).getD []) ↔ a ∈ x.getD [] ∧ p a := by
  cases x <;> simp [List.mem_filter]

theorem mem_keys_of_lookupL_isSome (m : List (α × β)) (k : α) (h : (lookupL m k).isSome) :
    k ∈ keysL m := by
  induction m with
  | nil => simp [lookupL] at h
  | cons hd tl ih =>
    obtain ⟨k0, v0⟩ := hd
    by_cases h0 : k0 = k
    · simp [keysL, h0]
    · simp only [lookupL_cons, if_neg h0] at h
      simp only [keysL, List.map_cons, List.mem_cons]
      exact Or.inr (ih h)

end MapLemmas

/-- Where on a controller a physical control lives (src/bindings.rs `ButtonLocation`). -/
inductive ButtonLocation where
  | button
  | analog
  | pov
deriving DecidableEq, Repr

/-- A physical control: an index plus a location (src/bindings.rs `Button`,
with `i16` embedded as `Int`). -/
structure Button where
  button : Int
  location : ButtonLocation
deriving DecidableEq, Repr

/-- Run condition of a binding (src/bindings.rs `RunWhen`). -/
inductive RunWhen where
  | onTrue
  | onFalse
  | whileTrue
  | whileFalse
deriving DecidableEq, Repr

/-- A binding of a command to a control (src/bindings.rs `Binding`;
`controller: u8` embedded as `Nat`). -/
structure Binding where
  controller : Nat
  button : Button
  during : RunWhen
deriving DecidableEq, Repr

/-- The `(u8, Button)` key of the reverse index (src/bindings.rs `PButton`). -/
abbrev PButton := Nat × Button

/-- The body of `rename_binding`'s reverse-index loop: a `(command, during)`
pair whose command equals the old name is rewritten to the new name. -/
def renamePair (from_ to_ : String) (q : String × RunWhen) : String × RunWhen :=
  if q.1 = from_ then (to_, q.2) else q

/-- The bidirectional binding index (src/bindings.rs `BindingsMap`): the
command-to-bindings map and the reverse (controller,button)-to-commands map. -/
structure BindingsMap where
  command_to_bindings : List (String × List Binding)
  binding_to_commands : List (PButton × List (String × RunWhen))
deriving DecidableEq, Repr

namespace BindingsMap

/-- The empty map (`BindingsMap::default()`). -/
def empty : BindingsMap := ⟨[], []⟩

/-- Rebuild a `BindingsMap` from a command-to-bindings map
(src/bindings.rs `impl From<BTreeMap<..>> for BindingsMap`): every binding of
every command is appended to its reverse-index entry, in map order. -/
def fromCommandMap (m : List (String × List Binding)) : BindingsMap :=
  { command_to_bindings := m
    binding_to_commands :=
      m.foldl
        (fun acc p =>
          p.2.foldl
            (fun acc b =>
              let cur := (lookupL acc (b.controller, b.button)).getD []
              upsertL (b.controller, b.button) (cur ++ [(p.1, b.during)]) acc)
            acc)
        [] }

/-- src/bindings.rs `BindingsMap::add_binding`: a no-op if the exact
(command, binding) pair is already present, otherwise the binding is pushed
onto the command's list and `(command, during)` onto the reverse entry. -/
def add_binding (bm : BindingsMap) (command : String) (binding : Binding) : BindingsMap :=
  let cur := (lookupL bm.command_to_bindings command).getD []
  if binding ∈ cur then bm
  else
    let curR := (lookupL bm.binding_to_commands (binding.controller, binding.button)).getD []
    { command_to_bindings := upsertL command (cur ++ [binding]) bm.command_to_bindings
      binding_to_commands :=
        upsertL (binding.controller, binding.button)
          (curR ++ [(command, binding.during)]) bm.binding_to_commands }

/-- src/bindings.rs `BindingsMap::remove_command`: drops the command's entry
and scrubs every reverse-index list of pairs referring to it. -/
def remove_command (bm : BindingsMap) (command : String) : BindingsMap :=
  { command_to_bindings := eraseL command bm.command_to_bindings
    binding_to_commands :=
      bm.binding_to_commands.map (fun p => (p.1, p.2.filter (fun q => ¬(q.1 = command)))) }

/-- src/bindings.rs `BindingsMap::bindings_for_command`: the command's binding
list, empty when the command has no entry. -/
def bindings_for_command (bm : BindingsMap) (command : String) : List Binding :=
  (lookupL bm.command_to_bindings command).getD []

/-- The reverse-index rewrite loop of `rename_binding`: for each binding of the
renamed command, every pair in the corresponding reverse entry whose command
equals `from_` is rewritten to `to`; `none` models the `unwrap` panic when a
reverse entry is missing. -/
def renameRev (from_ to_ : String) :
    List Binding → List (PButton × List (String × RunWhen)) →
      Option (List (PButton × List (String × RunWhen)))
  | [], m => some m
  | b :: rest, m =>
    match lookupL m (b.controller, b.button) with
    | none => none
    | some l =>
      renameRev from_ to_ rest
        (upsertL (b.controller, b.button) (l.map (renamePair from_ to_)) m)

/-- src/bindings.rs `BindingsMap::rename_binding`: removes the old command's
entry (panicking, modeled as `none`, if absent), rewrites each affected reverse
entry, and re-inserts the bindings under the new name. -/
def rename_binding (bm : BindingsMap) (from_ to_ : String) : Option BindingsMap :=
  (lookupL bm.command_to_bindings from_).bind
    (fun bindings =>
      (renameRev from_ to_ bindings bm.binding_to_commands).map
        (fun b2c =>
          { command_to_bindings :=
              upsertL to_ bindings (eraseL from_ bm.command_to_bindings)
            binding_to_commands := b2c }))

/-- src/bindings.rs `BindingsMap::remove_binding`: filters the binding out of
the command's list and the `(command, during)` pair out of the reverse entry;
both lookups `unwrap` in Rust, modeled as `none`. -/
def remove_binding (bm : BindingsMap) (command : String) (binding : Binding) :
    Option BindingsMap :=
  (lookupL bm.command_to_bindings command).bind
    (fun l =>
      (lookupL bm.binding_to_commands (binding.controller, binding.button)).bind
        (fun r =>
          some
            { command_to_bindings :=
                upsertL command (l.filter (fun b => ¬(b = binding))) bm.command_to_bindings
              binding_to_commands :=
                upsertL (binding.controller, binding.button)
                  (r.filter (fun q => ¬(command = q.1 ∧ q.2 = binding.during)))
                  bm.binding_to_commands }))

/-- src/bindings.rs `BindingsMap::is_used`: the command has a nonempty list. -/
def is_used (bm : BindingsMap) (command : String) : Bool :=
  match lookupL bm.command_to_bindings command with
  | none => false
  | some l => ¬l.isEmpty

/-- src/bindings.rs `BindingsMap::has_button`: the reverse index has the key
(even when its list is empty). -/
def has_button (bm : BindingsMap) (button : PButton) : Bool :=
  (lookupL bm.binding_to_commands button).isSome

/-- src/bindings.rs `BindingsMap::has_binding`: the command's list contains the
binding. -/
def has_binding (bm : BindingsMap) (command : String) (binding : Binding) : Bool :=
  binding ∈ (lookupL bm.command_to_bindings command).getD []

end BindingsMap

/-- The mirror invariant of the bidirectional index, as the spec states it:
a command has binding `b` in the forward map iff the reverse entry for
`b`'s (controller, button) pair contains `(command, b.during)`. -/
def Mirror (bm : BindingsMap) : Prop :=
  ∀ (c : String) (b : Binding),
    b ∈ (lookupL bm.command_to_bindings c).getD [] ↔
      (c, b.during) ∈ (lookupL bm.binding_to_commands (b.controller, b.button)).getD []

/-- Well-formedness carried through operation sequences: the mirror invariant
plus unique keys in both association lists (a `BTreeMap` never holds a
duplicate key). -/
def WF (bm : BindingsMap) : Prop :=
  Mirror bm ∧ (keysL bm.command_to_bindings).Nodup ∧ (keysL bm.binding_to_commands).Nodup

theorem wf_empty : WF BindingsMap.empty := by
  refine ⟨fun c b => ?_, by simp [BindingsMap.empty, keysL], by simp [BindingsMap.empty, keysL]⟩
  simp [BindingsMap.empty, lookupL]

theorem wf_add_binding (bm : BindingsMap) (c : String) (b : Binding) (h : WF bm) :
    WF (bm.add_binding c b) := by
  obtain ⟨hm, hf, hr⟩ := h
  unfold BindingsMap.add_binding
  by_cases hmem : b ∈ (lookupL bm.command_to_bindings c).getD []
  · simpa [hmem] using ⟨hm, hf, hr⟩
  · simp only [if_neg hmem]
    refine ⟨?_, keysL_nodup_upsert _ _ _ hf, keysL_nodup_upsert _ _ _ hr⟩
    intro c' b'
    simp only
    by_cases hc : c = c'
    · subst hc
      rw [lookupL_upsert_self]
      by_cases hb : b' = b
      · subst hb
        rw [lookupL_upsert_self]
        simp
      · by_cases hpb : (b.controller, b.button) = (b'.controller, b'.button)
        · rw [hpb, lookupL_upsert_self]
          have hd : ¬b'.during = b.during := by
            intro hd
            apply hb
            obtain ⟨bc, bb, bd⟩ := b
            obtain ⟨bc', bb', bd'⟩ := b'
            simp only [Prod.mk.injEq] at hpb
            simp_all
          have hmcb := hm c b'
          simp only [Option.getD_some, List.mem_append, List.mem_singleton,
            Prod.mk.injEq, hb, hd, and_false, or_false, true_and]
          exact hmcb
        · rw [lookupL_upsert_ne _ _ _ _ hpb]
          have hmcb := hm c b'
          simp only [Option.getD_some, List.mem_append, List.mem_singleton, hb, or_false]
          exact hmcb
    · rw [lookupL_upsert_ne _ _ _ _ hc]
      by_cases hpb : (b.controller, b.button) = (b'.controller, b'.button)
      · rw [hpb, lookupL_upsert_self]
        have hmcb := hm c' b'
        simp only [Option.getD_some, List.mem_append, List.mem_singleton, Prod.mk.injEq]
        constructor
        · intro hx
          exact Or.inl (hmcb.mp hx)
        · intro hx
          rcases hx with hx | hx
          · exact hmcb.mpr hx
          · exact absurd hx.1.symm hc
      · rw [lookupL_upsert_ne _ _ _ _ hpb]
        exact hm c' b'

theorem wf_remove_command (bm : BindingsMap) (c : String) (h : WF bm) :
    WF (bm.remove_command c) := by
  obtain ⟨hm, hf, hr⟩ := h
  refine ⟨?_, keysL_nodup_erase _ _ hf, ?_⟩
  · intro c' b'
    unfold BindingsMap.remove_command
    simp only
    rw [lookupL_map_values, mem_map_filter_getD]
    by_cases hc : c = c'
    · subst hc
      rw [lookupL_erase_self _ _ hf]
      simp
    · rw [lookupL_erase_ne _ _ _ hc, hm c' b']
      have hc' : ¬(c' = c) := fun he => hc he.symm
      simp [hc']
  · unfold BindingsMap.remove_command
    simp only
    rw [keysL_map_values]
    exact hr

theorem binding_eq_of_parts (b b' : Binding)
    (hpb : (b.controller, b.button) = (b'.controller, b'.button))
    (hd : b'.during = b.during) : b' = b := by
  obtain ⟨bc, bb, bd⟩ := b
  obtain ⟨bc', bb', bd'⟩ := b'
  simp only [Prod.mk.injEq] at hpb
  simp_all

theorem wf_remove_binding (bm bm' : BindingsMap) (c : String) (b : Binding) (h : WF bm)
    (hs : bm.remove_binding c b = some bm') : WF bm' := by
  obtain ⟨hm, hf, hr⟩ := h
  unfold BindingsMap.remove_binding at hs
  cases hF : lookupL bm.command_to_bindings c with
  | none => rw [hF] at hs; exact absurd hs (by simp)
  | some l =>
    rw [hF] at hs
    simp only [Option.some_bind] at hs
    cases hR : lookupL bm.binding_to_commands (b.controller, b.button) with
    | none => rw [hR] at hs; exact absurd hs (by simp)
    | some r =>
      rw [hR] at hs
      simp only [Option.some_bind, Option.some.injEq] at hs
      subst hs
      refine ⟨?_, keysL_nodup_upsert _ _ _ hf, keysL_nodup_upsert _ _ _ hr⟩
      intro c' b'
      simp only
      by_cases hc : c = c'
      · subst hc
        rw [lookupL_upsert_self]
        have hmc := hm c b'
        rw [hF] at hmc
        simp only [Option.getD_some] at hmc
        by_cases hpb : (b.controller, b.button) = (b'.controller, b'.button)
        · rw [hpb, lookupL_upsert_self]
          rw [hpb] at hR
          rw [hR] at hmc
          simp only [Option.getD_some] at hmc ⊢
          by_cases hb : b' = b
          · subst hb
            simp [List.mem_filter]
          · have hd : ¬b'.during = b.during := fun hd => hb (binding_eq_of_parts b b' hpb hd)
            simp [List.mem_filter, hmc, hb, hd]
        · have hb : ¬b' = b := fun hb => hpb (hb ▸ rfl)
          rw [lookupL_upsert_ne _ _ _ _ hpb]
          simp [List.mem_filter, hmc, hb]
      · rw [lookupL_upsert_ne _ _ _ _ hc]
        have hmc := hm c' b'
        by_cases hpb : (b.controller, b.button) = (b'.controller, b'.button)
        · rw [hpb, lookupL_upsert_self]
          rw [hpb] at hR
          rw [hR] at hmc
          simp only [Option.getD_some] at hmc ⊢
          rw [hmc]
          simp [List.mem_filter, hc]
        · rw [lookupL_upsert_ne _ _ _ _ hpb]
          exact hmc

theorem renamePair_idem (f t : String) (q : String × RunWhen) :
    renamePair f t (renamePair f t q) = renamePair f t q := by
  unfold renamePair
  by_cases h1 : q.1 = f
  · simp only [if_pos h1]
    by_cases h2 : t = f <;> simp [h2]
  · simp [h1]

theorem map_renamePair_idem (f t : String) (l : List (String × RunWhen)) :
    (l.map (renamePair f t)).map (renamePair f t) = l.map (renamePair f t) := by
  induction l with
  | nil => rfl
  | cons q rest ih => simp [renamePair_idem, ih]

theorem getD_map_list {γ δ : Type} (x : Option (List γ)) (g : γ → δ) :
    ((x.map (fun l => l.map g)).getD []) = (x.getD []).map g := by
  cases x <;> simp

theorem renameRev_keys (f t : String) (bs : List Binding)
    (m m' : List (PButton × List (String × RunWhen)))
    (h : BindingsMap.renameRev f t bs m = some m') : keysL m' = keysL m := by
  induction bs generalizing m with
  | nil =>
    simp only [BindingsMap.renameRev, Option.some.injEq] at h
    rw [h]
  | cons b rest ih =>
    simp only [BindingsMap.renameRev] at h
    cases hl : lookupL m (b.controller, b.button) with
    | none => rw [hl] at h; exact absurd h (by simp)
    | some l =>
      rw [hl] at h
      have hk := ih _ h
      rw [hk]
      exact keysL_upsert_mem _ _ _
        (mem_keys_of_lookupL_isSome _ _ (by rw [hl]; rfl))

theorem renameRev_lookup (f t : String) (bs : List Binding)
    (m m' : List (PButton × List (String × RunWhen)))
    (h : BindingsMap.renameRev f t bs m = some m') (pb : PButton) :
    lookupL m' pb =
      if pb ∈ bs.map (fun b => (b.controller, b.button)) then
        (lookupL m pb).map (fun l => l.map (renamePair f t))
      else lookupL m pb := by
  induction bs generalizing m with
  | nil =>
    simp only [BindingsMap.renameRev, Option.some.injEq] at h
    rw [h]
    simp
  | cons b rest ih =>
    simp only [BindingsMap.renameRev] at h
    cases hl : lookupL m (b.controller, b.button) with
    | none => rw [hl] at h; exact absurd h (by simp)
    | some l =>
      rw [hl] at h
      have hchar := ih _ h
      simp only [List.map_cons, List.mem_cons]
      by_cases h1 : pb = (b.controller, b.button)
      · rw [if_pos (Or.inl h1), hchar]
        by_cases h2 : pb ∈ rest.map (fun b => (b.controller, b.button))
        · rw [if_pos h2, h1, lookupL_upsert_self, hl]
          exact congrArg some (map_renamePair_idem f t l)
        · rw [if_neg h2, h1, lookupL_upsert_self, hl]
          rfl
      · have h1' : (b.controller, b.button) ≠ pb := fun he => h1 he.symm
        by_cases h2 : pb ∈ rest.map (fun b => (b.controller, b.button))
        · rw [if_pos (Or.inr h2), hchar, if_pos h2, lookupL_upsert_ne _ _ _ _ h1']
        · rw [if_neg (by simp [h1, h2]), hchar, if_neg h2, lookupL_upsert_ne _ _ _ _ h1']

theorem wf_rename_binding (bm bm' : BindingsMap) (f t : String) (h : WF bm)
    (hguard : (lookupL bm.command_to_bindings t).getD [] = [])
    (hs : bm.rename_binding f t = some bm') : WF bm' := by
  obtain ⟨hm, hf, hr⟩ := h
  unfold BindingsMap.rename_binding at hs
  cases hF : lookupL bm.command_to_bindings f with
  | none => rw [hF] at hs; exact absurd hs (by simp)
  | some bindings =>
    rw [hF] at hs
    simp only [Option.some_bind] at hs
    cases hRR : BindingsMap.renameRev f t bindings bm.binding_to_commands with
    | none => rw [hRR] at hs; exact absurd hs (by simp)
    | some R2 =>
      rw [hRR] at hs
      simp only [Option.map_some', Option.some.injEq] at hs
      subst hs
      refine ⟨?_, keysL_nodup_upsert _ _ _ (keysL_nodup_erase _ _ hf), ?_⟩
      swap
      · simp only
        rw [renameRev_keys f t bindings _ _ hRR]
        exact hr
      intro c' b'
      simp only
      rw [renameRev_lookup f t bindings _ _ hRR (b'.controller, b'.button)]
      by_cases ht : t = c'
      · subst ht
        rw [lookupL_upsert_self]
        simp only [Option.getD_some]
        by_cases hpbs :
            (b'.controller, b'.button) ∈ bindings.map (fun b => (b.controller, b.button))
        · rw [if_pos hpbs, getD_map_list]
          constructor
          · intro hb'
            have hmf := hm f b'
            rw [hF] at hmf
            simp only [Option.getD_some] at hmf
            exact List.mem_map.mpr ⟨(f, b'.during), hmf.mp hb', by simp [renamePair]⟩
          · intro hmem
            obtain ⟨⟨qa, qb⟩, hq, hqe⟩ := List.mem_map.mp hmem
            simp only [renamePair] at hqe
            by_cases hq1 : qa = f
            · rw [if_pos hq1] at hqe
              simp only [Prod.mk.injEq, true_and] at hqe
              rw [hq1, hqe] at hq
              have hmf := hm f b'
              rw [hF] at hmf
              simp only [Option.getD_some] at hmf
              exact hmf.mpr hq
            · rw [if_neg hq1] at hqe
              rw [hqe] at hq
              have hmt := hm t b'
              rw [hguard] at hmt
              exact absurd (hmt.mpr hq) (by simp)
        · rw [if_neg hpbs]
          constructor
          · intro hb'
            exact absurd (List.mem_map_of_mem _ hb') hpbs
          · intro hmem
            have hmt := hm t b'
            rw [hguard] at hmt
            exact absurd (hmt.mpr hmem) (by simp)
      · by_cases hfr : f = c'
        · subst hfr
          rw [lookupL_upsert_ne _ _ _ _ ht, lookupL_erase_self _ _ hf]
          simp only [Option.getD_none, List.not_mem_nil, false_iff]
          by_cases hpbs :
              (b'.controller, b'.button) ∈ bindings.map (fun b => (b.controller, b.button))
          · rw [if_pos hpbs, getD_map_list]
            intro hmem
            obtain ⟨⟨qa, qb⟩, hq, hqe⟩ := List.mem_map.mp hmem
            simp only [renamePair] at hqe
            by_cases hq1 : qa = f
            · rw [if_pos hq1] at hqe
              exact ht (congrArg Prod.fst hqe)
            · rw [if_neg hq1] at hqe
              exact hq1 (congrArg Prod.fst hqe)
          · rw [if_neg hpbs]
            intro hmem
            have hmf := hm f b'
            rw [hF] at hmf
            simp only [Option.getD_some] at hmf
            exact hpbs (List.mem_map_of_mem _ (hmf.mpr hmem))
        · rw [lookupL_upsert_ne _ _ _ _ ht, lookupL_erase_ne _ _ _ hfr]
          by_cases hpbs :
              (b'.controller, b'.button) ∈ bindings.map (fun b => (b.controller, b.button))
          · rw [if_pos hpbs, getD_map_list, hm c' b']
            constructor
            · intro hmem
              refine List.mem_map.mpr ⟨(c', b'.during), hmem, ?_⟩
              have hne : ¬(c' = f) := fun he => hfr he.symm
              simp [renamePair, hne]
            · intro hmem
              obtain ⟨⟨qa, qb⟩, hq, hqe⟩ := List.mem_map.mp hmem
              simp only [renamePair] at hqe
              by_cases hq1 : qa = f
              · rw [if_pos hq1] at hqe
                exact absurd (congrArg Prod.fst hqe) ht
              · rw [if_neg hq1] at hqe
                rw [hqe] at hq
                exact hq
          · rw [if_neg hpbs]
            exact hm c' b'

/-- One `BindingsMap` mutation, for stating properties of call sequences. -/
inductive Op where
  | addB (command : String) (binding : Binding)
  | removeB (command : String) (binding : Binding)
  | removeC (command : String)
  | renameB (from_ to_ : String)
deriving DecidableEq, Repr

/-- Apply one operation; `none` is a panic of the underlying Rust call. -/
def stepOp (bm : BindingsMap) : Op → Option BindingsMap
  | .addB c b => some (bm.add_binding c b)
  | .removeB c b => bm.remove_binding c b
  | .removeC c => some (bm.remove_command c)
  | .renameB f t => bm.rename_binding f t

/-- Run a sequence of operations left to right; `none` if any call panics. -/
def runOps (bm : BindingsMap) : List Op → Option BindingsMap
  | [] => some bm
  | op :: ops =>
    match stepOp bm op with
    | none => none
    | some bm2 => runOps bm2 ops

/-- The side condition of a `rename_binding` call: its target command has no
bindings at call time (`rename_binding` onto a command that already has
bindings strands that command's reverse-index pairs). -/
def renameGuard (bm : BindingsMap) : Op → Bool
  | .renameB _ t => ((lookupL bm.command_to_bindings t).getD []).isEmpty
  | _ => true

/-- A call sequence is safe when every `rename_binding` call in it is made at
a state where its target command has no bindings. -/
def SafeSeq (bm : BindingsMap) : List Op → Bool
  | [] => true
  | op :: ops =>
    renameGuard bm op &&
      (match stepOp bm op with
       | none => true
       | some bm2 => SafeSeq bm2 ops)

theorem wf_stepOp (bm bm2 : BindingsMap) (op : Op) (h : WF bm)
    (hg : renameGuard bm op = true) (hs : stepOp bm op = some bm2) : WF bm2 := by
  cases op with
  | addB c b =>
    simp only [stepOp, Option.some.injEq] at hs
    exact hs ▸ wf_add_binding bm c b h
  | removeB c b =>
    exact wf_remove_binding bm bm2 c b h hs
  | removeC c =>
    simp only [stepOp, Option.some.injEq] at hs
    exact hs ▸ wf_remove_command bm c h
  | renameB f t =>
    simp only [renameGuard, List.isEmpty_iff] at hg
    exact wf_rename_binding bm bm2 f t h hg hs

theorem wf_runOps (ops : List Op) (bm bm2 : BindingsMap) (h : WF bm)
    (hsafe : SafeSeq bm ops = true) (hrun : runOps bm ops = some bm2) : WF bm2 := by
  induction ops generalizing bm with
  | nil =>
    simp only [runOps, Option.some.injEq] at hrun
    exact hrun ▸ h
  | cons op rest ih =>
    simp only [runOps] at hrun
    simp only [SafeSeq, Bool.and_eq_true] at hsafe
    cases hstep : stepOp bm op with
    | none => rw [hstep] at hrun; exact absurd hrun (by simp)
    | some bmMid =>
      rw [hstep] at hrun hsafe
      exact ih bmMid (wf_stepOp bm bmMid op h hsafe.1 hstep) hsafe.2 hrun

theorem add_binding_mem (bm : BindingsMap) (c : String) (b : Binding) :
    b ∈ (lookupL (bm.add_binding c b).command_to_bindings c).getD [] := by
  unfold BindingsMap.add_binding
  by_cases hmem : b ∈ (lookupL bm.command_to_bindings c).getD []
  · simp only [if_pos hmem]
    exact hmem
  · simp only [if_neg hmem]
    rw [lookupL_upsert_self]
    simp

theorem add_binding_of_mem (bm : BindingsMap) (c : String) (b : Binding)
    (h : b ∈ (lookupL bm.command_to_bindings c).getD []) : bm.add_binding c b = bm := by
  unfold BindingsMap.add_binding
  rw [if_pos h]

/-- A binding on controller 0, button 1, run condition OnTrue, used in
concrete instances. -/
def bEx1 : Binding := ⟨0, ⟨1, ButtonLocation.button⟩, RunWhen.onTrue⟩

/-- A binding on controller 0, button 2, run condition OnTrue, used in
concrete instances. -/
def bEx2 : Binding := ⟨0, ⟨2, ButtonLocation.button⟩, RunWhen.onTrue⟩

/-- The call sequence refuting C1 as stated: the final `rename_binding` call
renames command a onto command b, which already has a binding. -/
def c1CexOps : List Op := [Op.addB "a" bEx1, Op.addB "b" bEx2, Op.renameB "a" "b"]

/-- The state `c1CexOps` produces: command b's overwritten forward entry lost
`bEx2`, but the reverse index still lists b under `bEx2`'s button. -/
def c1CexBM : BindingsMap :=
  ⟨[("b", [bEx1])],
   [((0, ⟨1, ButtonLocation.button⟩), [("b", RunWhen.onTrue)]),
    ((0, ⟨2, ButtonLocation.button⟩), [("b", RunWhen.onTrue)])]⟩

/-- C1, counterexample: a sequence of `add_binding`/`rename_binding` calls
from the empty map that completes without panicking yet leaves the two
indices out of mirror: the reverse entry for `bEx2`'s button still contains
(b, OnTrue) although command b no longer has binding `bEx2`. -/
theorem c1_counterexample :
    runOps BindingsMap.empty c1CexOps = some c1CexBM ∧ ¬Mirror c1CexBM := by
  constructor
  · decide
  · intro h
    have hx := (h "b" bEx2).mpr (by decide)
    revert hx
    decide

/-- C1 (amended: in every sequence of `add_binding`/`remove_binding`/
`remove_command`/`rename_binding` calls starting from the empty BindingsMap,
each `rename_binding` call must target a command that has no bindings at call
time; the original claim fails when a rename lands on an already-bound
command): for every such safe sequence that completes without panicking, the
command-to-bindings map and the binding-to-commands map remain mirror images:
a command has binding b iff the reverse entry for b's (controller, button)
pair contains (command, b.during). -/
theorem c1_mirror_invariant (ops : List Op) (bm : BindingsMap)
    (hsafe : SafeSeq BindingsMap.empty ops = true)
    (hrun : runOps BindingsMap.empty ops = some bm) : Mirror bm :=
  (wf_runOps ops BindingsMap.empty bm wf_empty hsafe hrun).1

/-- A safe sequence for the C1 witness: add a binding to a, rename a to the
unused command b. -/
def c1WitOps : List Op := [Op.addB "a" bEx1, Op.renameB "a" "b"]

/-- The state `c1WitOps` produces. -/
def c1WitBM : BindingsMap :=
  ⟨[("b", [bEx1])], [((0, ⟨1, ButtonLocation.button⟩), [("b", RunWhen.onTrue)])]⟩

/-- Witness for C1: the amended invariant theorem applied to the concrete
safe sequence `c1WitOps`. -/
theorem c1_mirror_invariant_witness : Mirror c1WitBM :=
  c1_mirror_invariant c1WitOps c1WitBM (by decide) (by decide)

/-- C6: `add_binding` is idempotent for an identical (command, binding) pair:
a second call with the same arguments leaves both indices exactly as they
were after the first call. -/
theorem c6_add_binding_idempotent (bm : BindingsMap) (c : String) (b : Binding) :
    (bm.add_binding c b).add_binding c b = bm.add_binding c b :=
  add_binding_of_mem _ _ _ (add_binding_mem bm c b)

/-- A map in which command a has the single binding `bEx1`. -/
def c7CexBM : BindingsMap :=
  ⟨[("a", [bEx1])], [((0, ⟨1, ButtonLocation.button⟩), [("a", RunWhen.onTrue)])]⟩

/-- C7, counterexample: with old = new = a on a map where a has an entry,
`rename_binding` succeeds but `bindings_for_command(old)` afterwards is the
original nonempty list, not the empty sequence the claim requires. -/
theorem c7_counterexample :
    c7CexBM.rename_binding "a" "a" = some c7CexBM ∧
      ¬c7CexBM.bindings_for_command "a" = [] := by
  constructor
  · decide
  · decide

/-- C7 (amended: old and new must be distinct; the hypothesis that the
forward map's keys have no duplicates is part of the `BTreeMap` model): after
a successful `rename_binding(old, new)`, `bindings_for_command(new)` is
exactly what `bindings_for_command(old)` returned before the call, and
`bindings_for_command(old)` is empty. -/
theorem c7_rename_preserves_bindings (bm bm' : BindingsMap) (f t : String)
    (hnodup : (keysL bm.command_to_bindings).Nodup) (hne : ¬f = t)
    (hs : bm.rename_binding f t = some bm') :
    bm'.bindings_for_command t = bm.bindings_for_command f ∧
      bm'.bindings_for_command f = [] := by
  unfold BindingsMap.rename_binding at hs
  cases hF : lookupL bm.command_to_bindings f with
  | none => rw [hF] at hs; exact absurd hs (by simp)
  | some bindings =>
    rw [hF] at hs
    simp only [Option.some_bind] at hs
    cases hRR : BindingsMap.renameRev f t bindings bm.binding_to_commands with
    | none => rw [hRR] at hs; exact absurd hs (by simp)
    | some R2 =>
      rw [hRR] at hs
      simp only [Option.map_some', Option.some.injEq] at hs
      subst hs
      constructor
      · unfold BindingsMap.bindings_for_command
        simp only
        rw [lookupL_upsert_self, hF]
      · unfold BindingsMap.bindings_for_command
        simp only
        have hts : ¬t = f := fun he => hne he.symm
        rw [lookupL_upsert_ne _ _ _ _ hts, lookupL_erase_self _ _ hnodup]
        rfl

/-- The C7 witness input: command a with the single binding `bEx1`. -/
def c7WitBefore : BindingsMap :=
  ⟨[("a", [bEx1])], [((0, ⟨1, ButtonLocation.button⟩), [("a", RunWhen.onTrue)])]⟩

/-- The C7 witness output: renaming a to b moved the entry. -/
def c7WitAfter : BindingsMap :=
  ⟨[("b", [bEx1])], [((0, ⟨1, ButtonLocation.button⟩), [("b", RunWhen.onTrue)])]⟩

/-- Witness for C7's amended theorem at a concrete rename from a to b. -/
theorem c7_rename_preserves_bindings_witness :
    c7WitAfter.bindings_for_command "b" = c7WitBefore.bindings_for_command "a" ∧
      c7WitAfter.bindings_for_command "a" = [] :=
  c7_rename_preserves_bindings c7WitBefore c7WitAfter "a" "b" (by decide) (by decide)
    (by decide)

/-- C9: when a map holds the pair (command, binding) and binding is the sole
occupant of its (controller, button) reverse entry, `remove_binding` succeeds
and `has_button` still reports the (controller, button) key afterwards:
the reverse-index list is emptied but its key is never deleted. -/
theorem c9_remove_binding_keeps_button (bm : BindingsMap) (c : String) (b : Binding)
    (hbind : bm.has_binding c b = true)
    (hsole : lookupL bm.binding_to_commands (b.controller, b.button) = some [(c, b.during)]) :
    ∃ bm', bm.remove_binding c b = some bm' ∧
      bm'.has_button (b.controller, b.button) = true := by
  unfold BindingsMap.has_binding at hbind
  cases hF : lookupL bm.command_to_bindings c with
  | none =>
    rw [hF] at hbind
    simp at hbind
  | some l =>
    refine
      ⟨{ command_to_bindings :=
           upsertL c (l.filter (fun x => ¬(x = b))) bm.command_to_bindings
         binding_to_commands :=
           upsertL (b.controller, b.button)
             ([(c, b.during)].filter (fun q => ¬(c = q.1 ∧ q.2 = b.during)))
             bm.binding_to_commands }, ?_, ?_⟩
    · unfold BindingsMap.remove_binding
      rw [hF, hsole]
      simp only [Option.some_bind]
    · unfold BindingsMap.has_button
      simp only
      rw [lookupL_upsert_self]
      rfl

/-- The C9 witness input: command a with the single binding `bEx1`, whose
button has only that one reverse pair. -/
def c9WitBM : BindingsMap :=
  ⟨[("a", [bEx1])], [((0, ⟨1, ButtonLocation.button⟩), [("a", RunWhen.onTrue)])]⟩

/-- Witness for C9 at a concrete removal. -/
theorem c9_remove_binding_keeps_button_witness :
    ∃ bm', c9WitBM.remove_binding "a" bEx1 = some bm' ∧
      bm'.has_button (bEx1.controller, bEx1.button) = true :=
  c9_remove_binding_keeps_button c9WitBM "a" bEx1 (by decide) (by decide)

/-- src/bindings.rs `ControllerType`: Generic{buttons, axises}, XBox
(its f32 sensitivity is carried but read by no modeled operation), NotBound. -/
inductive ControllerType where
  | generic (buttons : Nat) (axises : Nat)
  | xbox (sensitivity : Float)
  | notBound
deriving Repr

namespace ControllerType

/-- src/bindings.rs `ControllerType::num_buttons`. -/
def num_buttons : ControllerType → Nat
  | generic buttons _ => buttons
  | xbox _ => 10
  | notBound => 0

/-- src/bindings.rs `ControllerType::num_axises`. -/
def num_axises : ControllerType → Nat
  | generic _ axises => axises
  | xbox _ => 6
  | notBound => 0

/-- src/bindings.rs `ControllerType::bound`. -/
def bound : ControllerType → Bool
  | notBound => false
  | _ => true

/-- src/bindings.rs `ControllerType::enumerate_povs`: both match arms return
the same nine POV positions, including 315 and the -1 neutral position. -/
def enumerate_povs (_ : ControllerType) : List Button :=
  ([-1, 0, 45, 90, 135, 180, 225, 270, 315] : List Int).map
    (fun dir => ⟨dir, ButtonLocation.pov⟩)

/-- src/bindings.rs `ControllerType::enumerate_analog`. -/
def enumerate_analog : ControllerType → List Button
  | generic _ _ => []
  | xbox _ => [⟨2, ButtonLocation.analog⟩, ⟨3, ButtonLocation.analog⟩]
  | notBound => []

/-- src/bindings.rs `ControllerType::enumerate_buttons`: ordinary buttons
1..=num_buttons, then the POV positions, then the analog-as-button entries. -/
def enumerate_buttons (c : ControllerType) : List Button :=
  ((List.range c.num_buttons).map
    (fun n => ⟨((n : Int) + 1), ButtonLocation.button⟩))
    ++ c.enumerate_povs ++ c.enumerate_analog

/-- src/bindings.rs `ControllerType::valid_binding`: ordinary buttons valid in
1..=num_buttons; POV accepted against the literal list
[-1, 0, 45, 90, 135, 180, 225, 270] when the controller is bound; analog only
for XBox trigger indices 2 and 3. -/
def valid_binding (c : ControllerType) (binding : Button) : Bool :=
  match binding.location with
  | ButtonLocation.button =>
    decide (1 ≤ binding.button) && decide (binding.button ≤ (c.num_buttons : Int))
  | ButtonLocation.pov =>
    match c with
    | notBound => false
    | _ => ([-1, 0, 45, 90, 135, 180, 225, 270] : List Int).contains binding.button
  | ButtonLocation.analog =>
    match c with
    | generic _ _ => false
    | xbox _ => binding.button == 2 || binding.button == 3
    | notBound => false

end ControllerType

/-- C3 (evidence of the code bug): `valid_binding` rejects the POV compass
direction 315 on bound controllers — the accept-list omits 315 — although the
same type's `enumerate_povs` offers 315 as a selectable POV position and the
other seven compass directions and -1 are accepted. -/
theorem c3_pov_315_rejected :
    ControllerType.valid_binding (ControllerType.generic 5 2)
        ⟨315, ButtonLocation.pov⟩ = false ∧
    ControllerType.valid_binding (ControllerType.xbox 0.5)
        ⟨315, ButtonLocation.pov⟩ = false ∧
    (⟨315, ButtonLocation.pov⟩ : Button) ∈
        ControllerType.enumerate_povs (ControllerType.xbox 0.5) ∧
    ControllerType.valid_binding (ControllerType.xbox 0.5)
        ⟨270, ButtonLocation.pov⟩ = true ∧
    ControllerType.valid_binding (ControllerType.xbox 0.5)
        ⟨-1, ButtonLocation.pov⟩ = true := by
  refine ⟨rfl, rfl, ?_, rfl, rfl⟩
  simp [ControllerType.enumerate_povs]

/-- src/constants.rs `ConstantsType`: the type tag used to construct
zero-value constants. -/
inductive ConstantsType where
  | object
  | float
  | int
  | string
  | bool
  | distance
  | angle
  | driver (inner : ConstantsType)
  | list (elem : ConstantsType)
  | null
deriving DecidableEq, Repr

/-- src/constants.rs `Constants`: the recursive tagged-union constant value
(Object's `BTreeMap` embedded as an association list). -/
inductive Constants where
  | driver (default : Constants)
  | object (map : List (String × Constants))
  | int (i : Int)
  | float (f : Float)
  | string (s : String)
  | bool (b : Bool)
  | list (items : List Constants) (elemType : ConstantsType)
  | meters (distance : Float)
  | degrees (degrees : Float)
  | none
deriving Repr

namespace Constants

/-- The Rust `*x == Constants::None` comparison: `None` has no fields, so the
derived PartialEq test against it is a discriminant test. -/
def isNone : Constants → Bool
  | Constants.none => true
  | _ => false

/-- Discriminant test for the `Object` variant. -/
def isObject : Constants → Bool
  | Constants.object _ => true
  | _ => false

/-- Discriminant test for the `Driver` variant. -/
def isDriverC : Constants → Bool
  | Constants.driver _ => true
  | _ => false

/-- A `Driver` whose default is itself a `Driver`. -/
def isNestedDriver : Constants → Bool
  | Constants.driver (Constants.driver _) => true
  | _ => false

/-- src/constants.rs `Constants::default_for_type`: builds a zero-value
constant; the `panic!("can't have Driver<Driver>")` is modeled as `none`. -/
def default_for_type : ConstantsType → Option Constants
  | ConstantsType.object => some (Constants.object [])
  | ConstantsType.float => some (Constants.float 0.0)
  | ConstantsType.int => some (Constants.int 0)
  | ConstantsType.string => some (Constants.string "")
  | ConstantsType.driver d =>
    match d with
    | ConstantsType.driver _ => Option.none
    | _ => (default_for_type d).map (fun c => Constants.driver c)
  | ConstantsType.null => some Constants.none
  | ConstantsType.list t => some (Constants.list [] t)
  | ConstantsType.bool => some (Constants.bool false)
  | ConstantsType.distance => some (Constants.meters 0.0)
  | ConstantsType.angle => some (Constants.degrees 0.0)

/-- src/constants.rs `Constants::add_option`: walks the path; an `Object`
node descends into `entry(l).or_insert(None)` (the existing child, or a fresh
`None`); a `None` node is promoted to a one-entry object; any other node is a
conflict (returns true). At the end a non-`None` value is a conflict, else the
value is written. The returned pair is (conflict flag, resulting tree). -/
def add_option : Constants → List String → Constants → Bool × Constants
  | c, [], value => if c.isNone then (false, value) else (true, c)
  | Constants.object m, l :: rest, value =>
    ((add_option ((lookupL m l).getD Constants.none) rest value).1,
      Constants.object
        (upsertL l (add_option ((lookupL m l).getD Constants.none) rest value).2 m))
  | Constants.none, l :: rest, value =>
    ((add_option Constants.none rest value).1,
      Constants.object [(l, (add_option Constants.none rest value).2)])
  | c, _ :: _, _ => (true, c)

/-- Pure navigation along a path: `some` of the node that exists there,
descending only through `Object` children. -/
def getPath : Constants → List String → Option Constants
  | c, [] => some c
  | Constants.object m, l :: rest =>
    match lookupL m l with
    | some child => getPath child rest
    | Option.none => Option.none
  | _, _ :: _ => Option.none

end Constants

/-- The conflict condition in the words of the C4 claim: the walk along the
path meets an existing node that is neither Object nor Null before the final
segment, or an existing non-Null value at the final position. -/
def addOptionConflictSpec (c : Constants) (path : List String) : Prop :=
  (∃ j, j < path.length ∧ ∃ d, Constants.getPath c (path.take j) = some d ∧
    d.isObject = false ∧ d.isNone = false) ∨
  (∃ d, Constants.getPath c path = some d ∧ d.isNone = false)

/-- C8: `default_for_type` fails (panics, modeled `none`) for
Driver(Driver(X)) for every X, and whenever it returns a value, that value is
never a Driver whose default is itself a Driver. -/
theorem c8_driver_nesting_rejected :
    (∀ X : ConstantsType,
      Constants.default_for_type (ConstantsType.driver (ConstantsType.driver X)) =
        Option.none) ∧
    (∀ t : ConstantsType,
      ((Constants.default_for_type t).map Constants.isNestedDriver).getD false = false) := by
  constructor
  · intro X
    rfl
  · intro t
    cases t with
    | driver d => cases d <;> rfl
    | object => rfl
    | float => rfl
    | int => rfl
    | string => rfl
    | bool => rfl
    | distance => rfl
    | angle => rfl
    | list e => rfl
    | null => rfl

theorem getPath_nil (c : Constants) : Constants.getPath c [] = some c := by
  cases c <;> rfl

theorem add_option_none_false (path : List String) (v : Constants) :
    (Constants.add_option Constants.none path v).1 = false := by
  induction path with
  | nil => rfl
  | cons l rest ih => simpa [Constants.add_option] using ih

theorem add_option_conflict_unchanged (path : List String) (c v : Constants)
    (h : (Constants.add_option c path v).1 = true) :
    (Constants.add_option c path v).2 = c := by
  induction path generalizing c with
  | nil =>
    by_cases hn : c.isNone
    · simp [Constants.add_option, hn] at h
    · simp [Constants.add_option, hn]
  | cons l rest ih =>
    cases c with
    | object m =>
      cases hl : lookupL m l with
      | none =>
        have hfalse := add_option_none_false rest v
        simp [Constants.add_option, hl, hfalse] at h
      | some child =>
        simp only [Constants.add_option, hl, Option.getD_some] at h ⊢
        rw [ih child h, upsertL_eq_self_of_lookup m l child hl]
    | none =>
      have hfalse := add_option_none_false rest v
      simp [Constants.add_option, hfalse] at h
    | driver d => simp [Constants.add_option]
    | int i => simp [Constants.add_option]
    | float x => simp [Constants.add_option]
    | string s => simp [Constants.add_option]
    | bool b => simp [Constants.add_option]
    | list items t => simp [Constants.add_option]
    | meters x => simp [Constants.add_option]
    | degrees x => simp [Constants.add_option]

theorem spec_cons_object (m : List (String × Constants)) (l : String)
    (rest : List String) (child : Constants) (hl : lookupL m l = some child) :
    addOptionConflictSpec (Constants.object m) (l :: rest) ↔
      addOptionConflictSpec child rest := by
  unfold addOptionConflictSpec
  constructor
  · rintro (⟨j, hj, d, hd, hobj, hnone⟩ | ⟨d, hd, hnone⟩)
    · cases j with
      | zero =>
        simp only [List.take_zero, Constants.getPath, Option.some.injEq] at hd
        rw [← hd] at hobj
        simp [Constants.isObject] at hobj
      | succ j2 =>
        left
        rw [List.take_succ_cons] at hd
        simp only [Constants.getPath, hl] at hd
        exact ⟨j2, by simpa using hj, d, hd, hobj, hnone⟩
    · right
      simp only [Constants.getPath, hl] at hd
      exact ⟨d, hd, hnone⟩
  · rintro (⟨j2, hj, d, hd, hobj, hnone⟩ | ⟨d, hd, hnone⟩)
    · left
      refine ⟨j2 + 1, by simpa using hj, d, ?_, hobj, hnone⟩
      rw [List.take_succ_cons]
      simpa only [Constants.getPath, hl] using hd
    · right
      refine ⟨d, ?_, hnone⟩
      simpa only [Constants.getPath, hl] using hd

theorem spec_cons_object_missing (m : List (String × Constants)) (l : String)
    (rest : List String) (hl : lookupL m l = Option.none) :
    ¬addOptionConflictSpec (Constants.object m) (l :: rest) := by
  rintro (⟨j, hj, d, hd, hobj, hnone⟩ | ⟨d, hd, hnone⟩)
  · cases j with
    | zero =>
      simp only [List.take_zero, Constants.getPath, Option.some.injEq] at hd
      rw [← hd] at hobj
      simp [Constants.isObject] at hobj
    | succ j2 =>
      rw [List.take_succ_cons] at hd
      simp [Constants.getPath, hl] at hd
  · simp [Constants.getPath, hl] at hd

theorem spec_cons_none (l : String) (rest : List String) :
    ¬addOptionConflictSpec Constants.none (l :: rest) := by
  rintro (⟨j, hj, d, hd, hobj, hnone⟩ | ⟨d, hd, hnone⟩)
  · cases j with
    | zero =>
      simp only [List.take_zero, Constants.getPath, Option.some.injEq] at hd
      rw [← hd] at hnone
      simp [Constants.isNone] at hnone
    | succ j2 =>
      rw [List.take_succ_cons] at hd
      simp [Constants.getPath] at hd
  · simp [Constants.getPath] at hd

theorem spec_cons_other (c : Constants) (l : String) (rest : List String)
    (hobj : c.isObject = false) (hnone : c.isNone = false) :
    addOptionConflictSpec c (l :: rest) := by
  left
  refine ⟨0, by simp, c, ?_, hobj, hnone⟩
  rw [List.take_zero, getPath_nil]

theorem add_option_conflict_iff (path : List String) (c v : Constants) :
    (Constants.add_option c path v).1 = true ↔ addOptionConflictSpec c path := by
  induction path generalizing c with
  | nil =>
    by_cases hn : c.isNone
    · constructor
      · intro h
        simp [Constants.add_option, hn] at h
      · rintro (⟨j, hj, _⟩ | ⟨d, hd, hnone⟩)
        · simp at hj
        · rw [getPath_nil] at hd
          simp only [Option.some.injEq] at hd
          rw [← hd] at hnone
          rw [hn] at hnone
          exact absurd hnone (by simp)
    · constructor
      · intro _
        right
        exact ⟨c, getPath_nil c, by simpa using hn⟩
      · intro _
        simp [Constants.add_option, hn]
  | cons l rest ih =>
    cases c with
    | object m =>
      cases hl : lookupL m l with
      | none =>
        have hfalse := add_option_none_false rest v
        constructor
        · intro h
          simp [Constants.add_option, hl, hfalse] at h
        · intro h
          exact absurd h (spec_cons_object_missing m l rest hl)
      | some child =>
        rw [show (Constants.add_option (Constants.object m) (l :: rest) v).1 =
          (Constants.add_option child rest v).1 by simp [Constants.add_option, hl]]
        rw [ih child, spec_cons_object m l rest child hl]
    | none =>
      have hfalse := add_option_none_false rest v
      constructor
      · intro h
        simp [Constants.add_option, hfalse] at h
      · intro h
        exact absurd h (spec_cons_none l rest)
    | driver d =>
      simpa [Constants.add_option] using
        spec_cons_other (Constants.driver d) l rest rfl rfl
    | int i =>
      simpa [Constants.add_option] using
        spec_cons_other (Constants.int i) l rest rfl rfl
    | float x =>
      simpa [Constants.add_option] using
        spec_cons_other (Constants.float x) l rest rfl rfl
    | string s =>
      simpa [Constants.add_option] using
        spec_cons_other (Constants.string s) l rest rfl rfl
    | bool b =>
      simpa [Constants.add_option] using
        spec_cons_other (Constants.bool b) l rest rfl rfl
    | list items t =>
      simpa [Constants.add_option] using
        spec_cons_other (Constants.list items t) l rest rfl rfl
    | meters x =>
      simpa [Constants.add_option] using
        spec_cons_other (Constants.meters x) l rest rfl rfl
    | degrees x =>
      simpa [Constants.add_option] using
        spec_cons_other (Constants.degrees x) l rest rfl rfl

/-- C4: `add_option(path, value)` returns true (conflict) iff the walk meets
an existing node that is neither Object nor Null before the final segment, or
an existing non-Null value at the final position; and whenever it returns
true, the constant tree is left completely unchanged. -/
theorem c4_add_option_conflict (c : Constants) (path : List String) (v : Constants) :
    ((Constants.add_option c path v).1 = true ↔ addOptionConflictSpec c path) ∧
    ((Constants.add_option c path v).1 = true →
      (Constants.add_option c path v).2 = c) :=
  ⟨add_option_conflict_iff path c v, fun h => add_option_conflict_unchanged path c v h⟩

/-- Witness for C4's unchanged-on-conflict component at a concrete conflicting
input: adding below an existing Int leaf is a conflict and leaves the leaf. -/
theorem c4_add_option_conflict_witness :
    (Constants.add_option (Constants.int 5) ["x"] (Constants.int 7)).2 =
      Constants.int 5 :=
  (c4_add_option_conflict (Constants.int 5) ["x"] (Constants.int 7)).2 rfl

/-- src/constants.rs `Constants::remove_key`: a no-op on a `None` tree;
otherwise navigates objects along the path and removes the final key; the
`panic!`s (empty path, non-object node, missing intermediate key) are `none`. -/
def Constants.remove_key : Constants → List String → Option Constants
  | c, key =>
    if c.isNone then some c
    else
      match key, c with
      | [], _ => Option.none
      | [k], Constants.object m => some (Constants.object (eraseL k m))
      | [_], _ => Option.none
      | k :: rest, Constants.object m =>
        (match lookupL m k with
         | Option.none => Option.none
         | some child =>
           (Constants.remove_key child rest).map
             (fun child2 => Constants.object (upsertL k child2 m)))
      | _ :: _, _ => Option.none

/-- A per-profile document (src/bindings.rs `Profile`), holding the fields
the state core reads and writes. -/
structure ProfileData where
  command_to_bindings : List (String × List Binding)
  stream_to_axis : List (String × (Nat × Nat))
  controllers : List ControllerType
  controller_names : List String
  constants : Constants

/-- `Profile::default()`: empty maps, five unbound controllers with empty
names, a `None` constant tree. -/
def ProfileData.defaultP : ProfileData :=
  ⟨[], [], List.replicate 5 ControllerType.notBound, List.replicate 5 "",
    Constants.none⟩

/-- src/global_state.rs `State`: the in-memory aggregate. The purely
I/O-facing fields (`deploy_dir`, `url`, `syncing`, `sync_process`) are not
part of the model; every field the claims speak about is. -/
structure State where
  commands : List String
  bindings : BindingsMap
  controllers : List ControllerType
  controller_names : List String
  profile : String
  profiles : List String
  constants : Constants
  driver_constants : Constants
  stream_to_axis : List (String × (Nat × Nat))
  streams : List String

/-- Outcomes of the file-system interactions the state core performs:
profile reads (`Profile::get_from`), the profile-marker write inside
`change_profile`, per-profile document writes inside `map_profiles`, and
`write_out`. -/
structure Env where
  readP : String → Except String ProfileData
  markerWrite : Except String Unit
  writeP : String → Except String Unit
  writeOut : Except String Unit

/-- `BTreeSet::insert`: a no-op when the element is present. -/
def insertSet (x : String) (s : List String) : List String :=
  if x ∈ s then s else s ++ [x]

/-- `BTreeSet::remove`. -/
def removeSet (x : String) (s : List String) : List String :=
  s.filter (fun y => ¬(y = x))

namespace State

/-- src/global_state.rs `State::to_profile_data`: note that the document's
`constants` field carries `driver_constants`. -/
def to_profile_data (s : State) : ProfileData :=
  ⟨s.bindings.command_to_bindings, s.stream_to_axis, s.controllers,
    s.controller_names, s.driver_constants⟩

/-- src/global_state.rs `State::set_fields_from_profile`: replaces bindings
(rebuilt from the document's forward map), controller names, controllers,
`constants`, and the stream routing; `driver_constants` is not touched. -/
def set_fields_from_profile (s : State) (p : ProfileData) : State :=
  { s with
    bindings := BindingsMap.fromCommandMap p.command_to_bindings
    controller_names := p.controller_names
    controllers := p.controllers
    constants := p.constants
    stream_to_axis := p.stream_to_axis }

/-- src/global_state.rs `State::change_profile`: assigns the profile name
first, then writes the marker file, then loads the profile document and
installs its fields; any error is returned after the assignment, with no
rollback. The pair is (resulting state, error if any). -/
def change_profile (env : Env) (s : State) (profile : String) :
    State × Option String :=
  let s1 := { s with profile := profile }
  match env.markerWrite with
  | Except.error e => (s1, some e)
  | Except.ok _ =>
    match env.readP profile with
    | Except.error e => (s1, some e)
    | Except.ok p => (set_fields_from_profile s1 p, Option.none)

/-- The per-profile loop of `map_profiles` over the non-active profiles:
read, apply the closure, rewrite. The outer `none` is a panic inside the
closure; `some (some e)` is the first surfaced I/O error; `some none` is
success. Written documents are not tracked beyond success or failure. -/
def mapProfilesGo (env : Env) (f : ProfileData → Option ProfileData) :
    List String → Option (Option String)
  | [] => some Option.none
  | p :: rest =>
    match env.readP p with
    | Except.error e => some (some e)
    | Except.ok doc =>
      match f doc with
      | Option.none => Option.none
      | some _ =>
        match env.writeP p with
        | Except.error e => some (some e)
        | Except.ok _ => mapProfilesGo env f rest

/-- src/global_state.rs `State::map_profiles`: applies the closure to every
non-active profile document on disk, then to the active profile via the
`to_profile_data`/`set_fields_from_profile` round trip, then `write_out`s.
An error in the loop aborts before the in-memory update; a `write_out` error
is surfaced after it. -/
def map_profiles (env : Env) (s : State) (f : ProfileData → Option ProfileData) :
    Option (State × Option String) :=
  match mapProfilesGo env f (s.profiles.filter (fun p => ¬(p = s.profile))) with
  | Option.none => Option.none
  | some (some e) => some (s, some e)
  | some Option.none =>
    match f (to_profile_data s) with
    | Option.none => Option.none
    | some p2 =>
      match env.writeOut with
      | Except.error e => (some (set_fields_from_profile s p2, some e))
      | Except.ok _ => some (set_fields_from_profile s p2, Option.none)

end State

/-- The closure `RenameCommand` passes to `map_profiles`: move the old
command's entry, when present, to the new name. -/
def renameInProfile (old newName : String) (p : ProfileData) : Option ProfileData :=
  match lookupL p.command_to_bindings old with
  | Option.none => some p
  | some bs =>
    some { p with
      command_to_bindings := upsertL newName bs (eraseL old p.command_to_bindings) }

/-- The closure `RemoveOption` passes to `map_profiles`: remove the key from
the profile's constant tree (its panic propagates). -/
def removeOptionInProfile (key : List String) (p : ProfileData) : Option ProfileData :=
  (p.constants.remove_key key).map (fun c2 => { p with constants := c2 })

/-- Toasts produced when a `map_profiles`/`change_profile` error is routed
through a recursive `DisplayError` event. -/
def errToasts : Option String → List String
  | some e => [e]
  | Option.none => []

/-- src/global_state.rs `GlobalEvents`. -/
inductive GlobalEvents where
  | AddBinding (binding : Binding) (command : String)
  | RemoveBinding (binding : Binding) (command : String)
  | AddCommand (command : String)
  | RemoveCommand (command : String)
  | DisplayError (error : String)
  | Save
  | RenameCommand (old newName : String)
  | AddProfile (profile : String)
  | SetProfile (profile : String)
  | AddOption (key : List String) (constant : Constants)
  | AddOptionDriver (key : List String) (constant : Constants)
  | RemoveOption (key : List String)
  | RemoveOptionDriver (key : List String)
  | SetStream (stream : String) (controller axis : Nat)
  | AddStream (stream : String)
  | RenameStream (from_ to_ : String)
  | RemoveStream (stream : String)

/-- src/global_state.rs `State::handle_event`: applies one event and returns
(new state, toasts raised, needs-persist flag); `none` is a panic inside the
call (`remove_binding`/`remove_key` unwraps). The recursive
`self.handle_event(DisplayError ..)` calls are inlined as their effect, a
toast. -/
def handle_event (env : Env) (s : State) (event : GlobalEvents) :
    Option (State × List String × Bool) :=
  match event with
  | GlobalEvents.AddBinding binding command =>
    some ({ s with bindings := s.bindings.add_binding command binding }, [], true)
  | GlobalEvents.RemoveBinding binding command =>
    (s.bindings.remove_binding command binding).map
      (fun bm => ({ s with bindings := bm }, [], true))
  | GlobalEvents.AddCommand command =>
    some ({ s with commands := insertSet command s.commands }, [], true)
  | GlobalEvents.RemoveCommand command =>
    some ({ s with
      commands := removeSet command s.commands
      bindings := s.bindings.remove_command command }, [], true)
  | GlobalEvents.DisplayError error => some (s, [error], false)
  | GlobalEvents.Save => some (s, [], true)
  | GlobalEvents.RenameCommand old newName =>
    (match State.map_profiles env s (renameInProfile old newName) with
     | Option.none => Option.none
     | some (s1, err) =>
       some ({ s1 with commands := insertSet newName (removeSet old s1.commands) },
         errToasts err, true))
  | GlobalEvents.AddProfile profile =>
    some ({ s with profiles := s.profiles ++ [profile] }, [], false)
  | GlobalEvents.SetProfile profile =>
    (match State.change_profile env s profile with
     | (s1, err) => some (s1, errToasts err, false))
  | GlobalEvents.AddOption key constant =>
    (match Constants.add_option s.constants key constant with
     | (true, c2) => some ({ s with constants := c2 }, ["failed to add constants"], false)
     | (false, c2) => some ({ s with constants := c2 }, [], true))
  | GlobalEvents.AddOptionDriver key constant =>
    (match Constants.add_option s.driver_constants key constant with
     | (true, c2) =>
       some ({ s with driver_constants := c2 }, ["failed to add constant"], false)
     | (false, c2) => some ({ s with driver_constants := c2 }, [], true))
  | GlobalEvents.RemoveOption key =>
    (s.constants.remove_key key).bind
      (fun c2 =>
        match State.map_profiles env { s with constants := c2 }
            (removeOptionInProfile key) with
        | Option.none => Option.none
        | some (s1, err) => some (s1, errToasts err, true))
  | GlobalEvents.RemoveOptionDriver key =>
    (s.driver_constants.remove_key key).map
      (fun c2 => ({ s with driver_constants := c2 }, [], true))
  | GlobalEvents.SetStream stream controller axis =>
    some ({ s with
      stream_to_axis := upsertL stream (controller, axis) s.stream_to_axis }, [], true)
  | GlobalEvents.AddStream stream =>
    some ({ s with streams := insertSet stream s.streams }, [], true)
  | GlobalEvents.RenameStream from_ to_ =>
    some ({ s with
      streams := insertSet to_ (removeSet from_ s.streams)
      stream_to_axis :=
        match lookupL s.stream_to_axis from_ with
        | some b => upsertL to_ b (eraseL from_ s.stream_to_axis)
        | Option.none => eraseL from_ s.stream_to_axis }, [], true)
  | GlobalEvents.RemoveStream stream =>
    some ({ s with streams := removeSet stream s.streams }, [], true)

/-- The persistence contract from the C5 claim's words: false for
DisplayError, AddProfile, and SetProfile; for AddOption/AddOptionDriver true
exactly when the add is non-conflicting; true for every other event. -/
def persistExpected (s : State) (event : GlobalEvents) : Bool :=
  match event with
  | GlobalEvents.DisplayError _ => false
  | GlobalEvents.AddProfile _ => false
  | GlobalEvents.SetProfile _ => false
  | GlobalEvents.AddOption key constant => !(Constants.add_option s.constants key constant).1
  | GlobalEvents.AddOptionDriver key constant =>
    !(Constants.add_option s.driver_constants key constant).1
  | _ => true

/-- The loop of `State::is_used` over `enumerate_profiles`: the non-active
profiles are read from disk and checked first (errors propagate), the active
in-memory document last; the check is `contains_key`, even for an entry whose
binding list is empty. -/
def isUsedGo (env : Env) (command : String) (active : ProfileData) :
    List String → Except String Bool
  | [] => Except.ok (lookupL active.command_to_bindings command).isSome
  | p :: rest =>
    match env.readP p with
    | Except.error e => Except.error e
    | Except.ok doc =>
      if (lookupL doc.command_to_bindings command).isSome then Except.ok true
      else isUsedGo env command active rest

/-- src/global_state.rs `State::is_used`: scans every known profile — each
profile in the list other than the active one is loaded through the
environment, and the active one is checked in memory. -/
def State.is_used (env : Env) (s : State) (command : String) : Except String Bool :=
  isUsedGo env command s.to_profile_data
    (s.profiles.filter (fun p => ¬(p = s.profile)))

/-- C5: the needs-persist flag `handle_event` returns is false for
DisplayError, AddProfile, and SetProfile; true for Save and for every
binding/command/constant/stream mutation, with AddOption/AddOptionDriver true
exactly when non-conflicting. -/
theorem c5_handle_event_persist (env : Env) (s : State) (event : GlobalEvents)
    (r : State × List String × Bool)
    (h : handle_event env s event = some r) :
    r.2.2 = persistExpected s event := by
  cases event with
  | AddBinding binding command =>
    simp only [handle_event, Option.some.injEq] at h
    rw [← h]
    rfl
  | RemoveBinding binding command =>
    simp only [handle_event] at h
    cases hrb : s.bindings.remove_binding command binding with
    | none => rw [hrb] at h; simp at h
    | some bm2 =>
      rw [hrb] at h
      simp only [Option.map_some', Option.some.injEq] at h
      rw [← h]
      rfl
  | AddCommand command =>
    simp only [handle_event, Option.some.injEq] at h
    rw [← h]
    rfl
  | RemoveCommand command =>
    simp only [handle_event, Option.some.injEq] at h
    rw [← h]
    rfl
  | DisplayError error =>
    simp only [handle_event, Option.some.injEq] at h
    rw [← h]
    rfl
  | Save =>
    simp only [handle_event, Option.some.injEq] at h
    rw [← h]
    rfl
  | RenameCommand old newName =>
    simp only [handle_event] at h
    cases hmp : State.map_profiles env s (renameInProfile old newName) with
    | none => rw [hmp] at h; simp at h
    | some p =>
      obtain ⟨s1, err⟩ := p
      rw [hmp] at h
      simp only [Option.some.injEq] at h
      rw [← h]
      rfl
  | AddProfile profile =>
    simp only [handle_event, Option.some.injEq] at h
    rw [← h]
    rfl
  | SetProfile profile =>
    simp only [handle_event, Option.some.injEq] at h
    rw [← h]
    rfl
  | AddOption key constant =>
    simp only [handle_event] at h
    cases hadd : Constants.add_option s.constants key constant with
    | mk conflict c2 =>
      rw [hadd] at h
      cases conflict with
      | true =>
        simp only [Option.some.injEq] at h
        rw [← h]
        simp [persistExpected, hadd]
      | false =>
        simp only [Option.some.injEq] at h
        rw [← h]
        simp [persistExpected, hadd]
  | AddOptionDriver key constant =>
    simp only [handle_event] at h
    cases hadd : Constants.add_option s.driver_constants key constant with
    | mk conflict c2 =>
      rw [hadd] at h
      cases conflict with
      | true =>
        simp only [Option.some.injEq] at h
        rw [← h]
        simp [persistExpected, hadd]
      | false =>
        simp only [Option.some.injEq] at h
        rw [← h]
        simp [persistExpected, hadd]
  | RemoveOption key =>
    simp only [handle_event] at h
    cases hrk : s.constants.remove_key key with
    | none => rw [hrk] at h; simp at h
    | some c2 =>
      rw [hrk] at h
      simp only [Option.some_bind] at h
      cases hmp : State.map_profiles env { s with constants := c2 }
          (removeOptionInProfile key) with
      | none => rw [hmp] at h; simp at h
      | some p =>
        obtain ⟨s1, err⟩ := p
        rw [hmp] at h
        simp only [Option.some.injEq] at h
        rw [← h]
        rfl
  | RemoveOptionDriver key =>
    simp only [handle_event] at h
    cases hrk : s.driver_constants.remove_key key with
    | none => rw [hrk] at h; simp at h
    | some c2 =>
      rw [hrk] at h
      simp only [Option.map_some', Option.some.injEq] at h
      rw [← h]
      rfl
  | SetStream stream controller axis =>
    simp only [handle_event, Option.some.injEq] at h
    rw [← h]
    rfl
  | AddStream stream =>
    simp only [handle_event, Option.some.injEq] at h
    rw [← h]
    rfl
  | RenameStream from_ to_ =>
    simp only [handle_event, Option.some.injEq] at h
    rw [← h]
    rfl
  | RemoveStream stream =>
    simp only [handle_event, Option.some.injEq] at h
    rw [← h]
    rfl

/-- An environment where every file-system interaction succeeds. -/
def envOk : Env :=
  { readP := fun _ => Except.ok ProfileData.defaultP
    markerWrite := Except.ok ()
    writeP := fun _ => Except.ok ()
    writeOut := Except.ok () }

/-- A fresh state: no commands or bindings, active profile `default`. -/
def stateEx : State :=
  { commands := []
    bindings := BindingsMap.empty
    controllers := List.replicate 5 ControllerType.notBound
    controller_names := List.replicate 5 ""
    profile := "default"
    profiles := ["default"]
    constants := Constants.none
    driver_constants := Constants.none
    stream_to_axis := []
    streams := [] }

/-- Witness for C5 at the concrete Save event in a fresh state. -/
theorem c5_handle_event_persist_witness :
    (stateEx, ([] : List String), true).2.2 = persistExpected stateEx GlobalEvents.Save :=
  c5_handle_event_persist envOk stateEx GlobalEvents.Save (stateEx, [], true) rfl

/-- C10: whenever `change_profile(name)` returns an error, the state's
profile field has already been set to `name` (the assignment precedes the
I/O), while bindings, controllers, controller_names, constants,
driver_constants, and stream_to_axis are unchanged: a failed switch is not
rolled back. -/
theorem c10_change_profile_frame (env : Env) (s : State) (name err : String)
    (h : (State.change_profile env s name).2 = some err) :
    (State.change_profile env s name).1.profile = name ∧
    (State.change_profile env s name).1.bindings = s.bindings ∧
    (State.change_profile env s name).1.controllers = s.controllers ∧
    (State.change_profile env s name).1.controller_names = s.controller_names ∧
    (State.change_profile env s name).1.constants = s.constants ∧
    (State.change_profile env s name).1.driver_constants = s.driver_constants ∧
    (State.change_profile env s name).1.stream_to_axis = s.stream_to_axis := by
  unfold State.change_profile at h ⊢
  cases hmw : env.markerWrite with
  | error e => simp [hmw]
  | ok u =>
    cases hrp : env.readP name with
    | error e => simp [hmw, hrp]
    | ok p =>
      simp only [hmw, hrp] at h
      simp at h

/-- An environment whose profile-marker write fails. -/
def envErr : Env :=
  { readP := fun _ => Except.ok ProfileData.defaultP
    markerWrite := Except.error "boom"
    writeP := fun _ => Except.ok ()
    writeOut := Except.ok () }

/-- Witness for C10 at a concrete failing switch. -/
theorem c10_change_profile_frame_witness :
    (State.change_profile envErr stateEx "comp").1.profile = "comp" ∧
    (State.change_profile envErr stateEx "comp").1.bindings = stateEx.bindings ∧
    (State.change_profile envErr stateEx "comp").1.controllers = stateEx.controllers ∧
    (State.change_profile envErr stateEx "comp").1.controller_names =
      stateEx.controller_names ∧
    (State.change_profile envErr stateEx "comp").1.constants = stateEx.constants ∧
    (State.change_profile envErr stateEx "comp").1.driver_constants =
      stateEx.driver_constants ∧
    (State.change_profile envErr stateEx "comp").1.stream_to_axis =
      stateEx.stream_to_axis :=
  c10_change_profile_frame envErr stateEx "comp" "boom" rfl

theorem isUsedGo_spec (env : Env) (command : String) (active : ProfileData)
    (ps : List String)
    (hreads : ∀ p ∈ ps, ∃ doc, env.readP p = Except.ok doc) :
    ∃ b, isUsedGo env command active ps = Except.ok b ∧
      (b = true ↔
        ((∃ p ∈ ps, ∃ doc, env.readP p = Except.ok doc ∧
          (lookupL doc.command_to_bindings command).isSome) ∨
         (lookupL active.command_to_bindings command).isSome)) := by
  induction ps with
  | nil =>
    refine ⟨(lookupL active.command_to_bindings command).isSome, rfl, ?_⟩
    simp
  | cons p rest ih =>
    obtain ⟨doc, hdoc⟩ := hreads p (by simp)
    by_cases hc : (lookupL doc.command_to_bindings command).isSome
    · refine ⟨true, ?_, ?_⟩
      · simp [isUsedGo, hdoc, hc]
      · simp only [true_iff]
        left
        exact ⟨p, by simp, doc, hdoc, hc⟩
    · obtain ⟨b, hb, hiff⟩ := ih (fun q hq => hreads q (by simp [hq]))
      refine ⟨b, ?_, ?_⟩
      · simp only [isUsedGo, hdoc]
        rw [if_neg hc]
        exact hb
      · rw [hiff]
        constructor
        · rintro (⟨q, hq, d2, hd2, hs2⟩ | hact)
          · exact Or.inl ⟨q, by simp [hq], d2, hd2, hs2⟩
          · exact Or.inr hact
        · rintro (⟨q, hq, d2, hd2, hs2⟩ | hact)
          · rcases List.mem_cons.mp hq with hq2 | hq2
            · subst hq2
              rw [hdoc] at hd2
              simp only [Except.ok.injEq] at hd2
              rw [← hd2] at hs2
              exact absurd hs2 hc
            · exact Or.inl ⟨q, hq2, d2, hd2, hs2⟩
          · exact Or.inr hact

/-- C2 (amended: `is_used` consults every known profile — the non-active ones
read from disk plus the active in-memory one — but its per-profile check is
`contains_key`: it returns true iff some consulted document has an entry for
the command, even an entry whose binding list is empty; so after the
command's bindings are removed by `remove_binding`, the lingering empty entry
keeps `is_used` true until the entry itself is deleted). -/
theorem c2_is_used_contains (env : Env) (s : State) (command : String)
    (hreads : ∀ p ∈ s.profiles.filter (fun p => ¬(p = s.profile)),
      ∃ doc, env.readP p = Except.ok doc) :
    ∃ b, State.is_used env s command = Except.ok b ∧
      (b = true ↔
        ((∃ p ∈ s.profiles.filter (fun p => ¬(p = s.profile)),
          ∃ doc, env.readP p = Except.ok doc ∧
            (lookupL doc.command_to_bindings command).isSome) ∨
         (lookupL s.bindings.command_to_bindings command).isSome)) :=
  isUsedGo_spec env command s.to_profile_data
    (s.profiles.filter (fun p => ¬(p = s.profile))) hreads

/-- A profile document binding only the command shoot. -/
def profComp : ProfileData :=
  ⟨[("shoot", [bEx1])], [], List.replicate 5 ControllerType.notBound,
    List.replicate 5 "", Constants.none⟩

/-- An environment whose profile reads all return `profComp`. -/
def envComp : Env :=
  { readP := fun _ => Except.ok profComp
    markerWrite := Except.ok ()
    writeP := fun _ => Except.ok ()
    writeOut := Except.ok () }

/-- A state with two known profiles, `default` active. -/
def stateTwoProfiles : State :=
  { commands := ["shoot"]
    bindings := BindingsMap.empty
    controllers := List.replicate 5 ControllerType.notBound
    controller_names := List.replicate 5 ""
    profile := "default"
    profiles := ["default", "comp"]
    constants := Constants.none
    driver_constants := Constants.none
    stream_to_axis := []
    streams := [] }

/-- Witness for C2's amended theorem with a command bound only in the
non-active profile comp. -/
theorem c2_is_used_contains_witness :
    ∃ b, State.is_used envComp stateTwoProfiles "shoot" = Except.ok b ∧
      (b = true ↔
        ((∃ p ∈ stateTwoProfiles.profiles.filter
            (fun p => ¬(p = stateTwoProfiles.profile)),
          ∃ doc, envComp.readP p = Except.ok doc ∧
            (lookupL doc.command_to_bindings "shoot").isSome) ∨
         (lookupL stateTwoProfiles.bindings.command_to_bindings "shoot").isSome)) :=
  c2_is_used_contains envComp stateTwoProfiles "shoot"
    (fun _ _ => ⟨profComp, rfl⟩)

/-- The C2 counterexample's starting state: shoot bound once in the only
(active) profile. -/
def c2CexState : State :=
  { commands := ["shoot"]
    bindings :=
      ⟨[("shoot", [bEx1])],
       [((0, ⟨1, ButtonLocation.button⟩), [("shoot", RunWhen.onTrue)])]⟩
    controllers := List.replicate 5 ControllerType.notBound
    controller_names := List.replicate 5 ""
    profile := "default"
    profiles := ["default"]
    constants := Constants.none
    driver_constants := Constants.none
    stream_to_axis := []
    streams := [] }

/-- The state after removing shoot's only binding: the entry lingers empty. -/
def c2CexAfter : State :=
  { commands := ["shoot"]
    bindings := ⟨[("shoot", [])], [((0, ⟨1, ButtonLocation.button⟩), [])]⟩
    controllers := List.replicate 5 ControllerType.notBound
    controller_names := List.replicate 5 ""
    profile := "default"
    profiles := ["default"]
    constants := Constants.none
    driver_constants := Constants.none
    stream_to_axis := []
    streams := [] }

/-- C2, counterexample: after `RemoveBinding` deletes the command's only
binding in its only profile — so the command's bindings are removed from
every profile — `is_used` still answers true, because the empty
`command_to_bindings` entry still satisfies `contains_key`; the claim
requires false here. -/
theorem c2_counterexample :
    handle_event envOk c2CexState (GlobalEvents.RemoveBinding bEx1 "shoot") =
      some (c2CexAfter, [], true) ∧
    State.is_used envOk c2CexAfter "shoot" = Except.ok true :=
  ⟨rfl, rfl⟩

end BindingsGui
